import Mathlib

/-!
Shallow embedding of the calculator-and-kitchen-conversion service
(`src/custom_components/calc_service/__init__.py`; the near-duplicate
`src/__init__.py` differs only in lacking the unit-conversion path and the
`convert` table entry, so the richer file is the one embedded).

Modelling conventions:

* Python integers are `ℤ`; Python floats are modelled as exact rationals `ℚ`
  (binary floating-point rounding is not modelled: every numeric literal of
  the development is taken at its exact decimal value).
* The values of the transcendental math functions (`sin`, `log`, ...) and of
  non-integral exponentiation are irrational, hence not representable in the
  rational model.  They are abstracted by a `MathInterp` structure of
  arbitrary rational-valued functions; every theorem below is proved for all
  interpretations, so no result depends on the placeholder values.  The
  domain checks of those functions (negative `sqrt`, non-positive `log`,
  two-argument `log` with base one, zero division in `**`) are modelled
  exactly.  Complex results of `**` (negative base, fractional exponent) and
  float overflow are outside the rational model and are absorbed into the
  interpretation's value; no claim of this development touches them.
  String repetition and percent-formatting corners of the Python binary
  operators are likewise unmodelled (string concatenation by `+` is
  modelled); no claim depends on them.
* Python exceptions are the `Err` type; a computation that may raise is an
  `Except Err _` value.  `ast.parse` belongs to the host language, not to
  this repository, so the dispatch function `safe_eval` receives the parse
  result (`Except Err Ast`) as an explicit argument; everything after the
  parse is transcribed from the source.
* Character classes of the regular expression `CONV_RE` are the ASCII classes
  (`\s`, `\d`, `[a-zA-Z_]`); the Unicode extensions of Python's `re` do not
  matter for any claim and are not modelled.
-/

namespace CalcService

/-- ASCII decimal digit, the `\d` class of `CONV_RE`. -/
def isDig (c : Char) : Bool := 48 ≤ c.toNat && c.toNat ≤ 57

/-- Letter or underscore, the `[a-zA-Z_]` class of `CONV_RE`. -/
def isLet (c : Char) : Bool :=
  (97 ≤ c.toNat && c.toNat ≤ 122) || (65 ≤ c.toNat && c.toNat ≤ 90) || c.toNat = 95

/-- Whitespace, the `\s` class of `CONV_RE` (space, tab, LF, VT, FF, CR). -/
def isSpc (c : Char) : Bool :=
  c.toNat = 32 || c.toNat = 9 || c.toNat = 10 || c.toNat = 11 || c.toNat = 12 || c.toNat = 13

/-- Greedy maximal-munch split: the longest prefix of characters satisfying
`p`, and the remainder.  Used for `\s*`, `\d+` and `[a-zA-Z_]+` pieces. -/
def spanP (p : Char → Bool) : List Char → List Char × List Char
  | [] => ([], [])
  | c :: cs =>
    if p c then
      let r := spanP p cs
      (c :: r.1, r.2)
    else ([], c :: cs)

/-- Greedy `\s*`: drop the maximal whitespace prefix. -/
def dropSpaces : List Char → List Char
  | [] => []
  | c :: cs => if isSpc c then dropSpaces cs else c :: cs

/-- Errors raised by the Python source: `NameError`, the two `ValueError`
uses (unsupported node, unit-conversion failure), `KeyError` from the `OPS`
table, `ZeroDivisionError`, `TypeError`, `ValueError` math-domain errors,
`AttributeError`, and `SyntaxError` from `ast.parse`. -/
inductive Err where
  | nameError (id : String)
  | unsupportedNode (desc : String)
  | keyError
  | zeroDivisionError
  | typeError
  | domainError
  | conversionError (fromU toU : String)
  | attributeError
  | synError
deriving DecidableEq, Repr

/-- VOL_ML: volume alias table, millilitres per unit, from the source
(decimal float literals taken exactly). -/
def VOL_ML : List (String × ℚ) :=
  [("ml", 1), ("milliliter", 1), ("milliliters", 1),
   ("l", 1000), ("liter", 1000), ("liters", 1000),
   ("cup", 236588/1000), ("cups", 236588/1000),
   ("tbsp", 15), ("tablespoon", 15), ("tablespoons", 15),
   ("tsp", 5), ("teaspoon", 5), ("teaspoons", 5),
   ("fl_oz", 295735/10000), ("floz", 295735/10000), ("fl‑oz", 295735/10000),
   ("fluidounce", 295735/10000)]

/-- MASS_G: mass alias table, grams per unit, from the source. -/
def MASS_G : List (String × ℚ) :=
  [("g", 1), ("gram", 1), ("grams", 1),
   ("kg", 1000), ("kilogram", 1000), ("kilograms", 1000),
   ("oz", 283495/10000), ("ounce", 283495/10000), ("ounces", 283495/10000),
   ("lb", 453592/1000), ("lbs", 453592/1000), ("pound", 453592/1000),
   ("pounds", 453592/1000)]

/-- ASCII lowercasing of one character (`str.lower` acts as the identity on
every character of the unit tables' aliases outside `A`-`Z`). -/
def lowerChar (c : Char) : Char :=
  if 65 ≤ c.toNat ∧ c.toNat ≤ 90 then Char.ofNat (c.toNat + 32) else c

/-- Python's `str.lower()` restricted to ASCII (the non-ASCII lowercase
mappings of Python are irrelevant to the alias tables and not modelled). -/
def pyLower (s : String) : String := ⟨s.data.map lowerChar⟩

/-- Python dict membership-plus-indexing (`u in T` / `T[u]`) on the unit
tables. -/
def unitLookup : List (String × ℚ) → String → Option ℚ
  | [], _ => none
  | (k, v) :: rest, u => if u = k then some v else unitLookup rest u

/-- The source's `_convert(val, from_u, to_u)` at numeric argument type:
lowercase both unit names, try the volume table, then the mass table, else
raise `ValueError` (the spec's `ConversionError`). -/
def _convert (val : ℚ) (from_u to_u : String) : Except Err ℚ :=
  match unitLookup VOL_ML (pyLower from_u), unitLookup VOL_ML (pyLower to_u) with
  | some a, some b => .ok (val * a / b)
  | _, _ =>
    match unitLookup MASS_G (pyLower from_u), unitLookup MASS_G (pyLower to_u) with
    | some a, some b => .ok (val * a / b)
    | _, _ => .error (.conversionError from_u to_u)

/-- Connector alternation `(?:to|in|→|>)` of `CONV_RE`, alternatives tried
in order; at most one alternative can match at a given position since the
first characters are pairwise distinct. -/
def matchConn (t : List Char) : Option (List Char) :=
  if t.take 2 = ['t', 'o'] then some (t.drop 2)
  else if t.take 2 = ['i', 'n'] then some (t.drop 2)
  else if t.take 1 = ['→'] then some (t.drop 1)
  else if t.take 1 = ['>'] then some (t.drop 1)
  else none

/-- Tail of `CONV_RE` after the first unit group:
`\s*(?:to|in|→|>)\s*([a-zA-Z_]+)\s*$`.  Returns the second unit group.
The three `\s*` are maximal-munch without loss: a connector never starts
with whitespace, the unit group never starts with whitespace, and a shorter
final unit group only exposes a letter which `\s*$` cannot absorb. -/
def tailMatch (rest : List Char) : Option (List Char) :=
  match matchConn (dropSpaces rest) with
  | none => none
  | some r2 =>
    match spanP isLet (dropSpaces r2) with
    | (u2, r3) =>
      if u2.isEmpty then none
      else if (dropSpaces r3).isEmpty then some u2 else none

/-- Backtracking of the greedy first unit group `([a-zA-Z_]+)`: `run` is the
maximal letter run, and splits `run.take k` / `run.drop k` are tried from the
longest down to length one, exactly as the regex engine backtracks. -/
def trySplits (run rest : List Char) : Nat → Option (List Char × List Char)
  | 0 => none
  | k + 1 =>
    match tailMatch (run.drop (k + 1) ++ rest) with
    | some u2 => some (run.take (k + 1), u2)
    | none => trySplits run rest k

/-- Optional fraction `(?:\.\d+)?` after the integer digits: consumed only
when a dot directly followed by at least one digit is present (a bare dot is
left in place, where the following letter group will fail to match, exactly
as the regex optional group fails). -/
def convFrac (ds r1 : List Char) : Option (List Char × List Char × List Char) :=
  match r1 with
  | '.' :: t =>
    match spanP isDig t with
    | (f2, r3) => if f2.isEmpty then some (ds, [], r1) else some (ds, f2, r3)
  | _ => some (ds, [], r1)

/-- Number group `(\d+(?:\.\d+)?)` of `CONV_RE`: integer digits then the
optional fraction.  Returns integer digits, fraction digits, rest. -/
def convNum (s1 : List Char) : Option (List Char × List Char × List Char) :=
  match spanP isDig s1 with
  | (ds, r1) => if ds.isEmpty then none else convFrac ds r1

/-- Unit-and-connector tail of `CONV_RE`: `\s*` then the greedy letter run
with backtracking, then `tailMatch`. -/
def convUnits (r2 : List Char) : Option (List Char × List Char) :=
  match spanP isLet (dropSpaces r2) with
  | (run, r5) => if run.isEmpty then none else trySplits run r5 run.length

/-- Numeric value of a digit list (base 10). -/
def digitsVal (ds : List Char) : ℕ :=
  ds.foldl (fun a c => 10 * a + (c.toNat - 48)) 0

/-- Value of `float(m.group(1))`, exactly (decimal, not binary, rounding). -/
def decValue (ds fs : List Char) : ℚ :=
  (digitsVal ds : ℚ) + (digitsVal fs : ℚ) / (10 : ℚ) ^ fs.length

/-- Anchored match of `CONV_RE` against the whole character list, returning
the parsed number and the two unit groups, or `none` exactly when the regex
does not match. -/
def convMatch (s : List Char) : Option (ℚ × String × String) :=
  match convNum (dropSpaces s) with
  | none => none
  | some (ds, fs, r2) =>
    match convUnits r2 with
    | none => none
    | some (u1, u2) => some (decValue ds fs, u1.asString, u2.asString)

/-- The source's `try_unit_conversion`: `None` when `CONV_RE` does not match;
on a match, `_convert` is invoked and its `ConversionError` propagates
(it is not caught). -/
def try_unit_conversion (expr : String) : Except Err (Option ℚ) :=
  match convMatch expr.data with
  | none => .ok none
  | some (v, u1, u2) =>
    match _convert v u1 u2 with
    | .ok r => .ok (some r)
    | .error e => .error e

/-- Python numbers: `int` exactly, `float` as an exact rational. -/
inductive PyNum where
  | intN (n : ℤ)
  | floatN (q : ℚ)
deriving DecidableEq, Repr

/-- The whitelisted callables reachable from the symbol table: the eleven
`math` functions plus the injected `convert`. -/
inductive FuncV where
  | sin | cos | tan | asin | acos | atan | sqrt | log | log10 | log2 | exp
  | convert
deriving DecidableEq, Repr

/-- Python runtime values the evaluator can produce: numbers, strings,
booleans, `None` (all of which `ast.Constant` can carry), and the
whitelisted callables. -/
inductive Value where
  | num (v : PyNum)
  | strV (s : String)
  | boolV (b : Bool)
  | noneV
  | fn (f : FuncV)
deriving DecidableEq, Repr

/-- Constant payloads an `ast.Constant` node can carry. -/
inductive Cst where
  | intC (n : ℤ)
  | floatC (q : ℚ)
  | boolC (b : Bool)
  | strC (s : String)
  | noneC
deriving DecidableEq, Repr

/-- Binary operator kinds of the Python `ast` module; only the first six are
keys of `OPS`. -/
inductive BinK where
  | add | sub | mult | div | pow | mod
  | floorDiv | lshift | rshift | bitOr | bitXor | bitAnd | matMult
deriving DecidableEq, Repr

/-- Unary operator kinds of the Python `ast` module; only `usub` is a key of
`OPS`. -/
inductive UnK where
  | usub | uadd | notK | invert
deriving DecidableEq, Repr

/-- Expression AST as produced by `ast.parse(expr, mode="eval")`, covering
the node kinds the evaluator dispatches on plus representative node kinds of
the richer grammar (attribute access, indexing, comparison, boolean
operators, conditional expressions, displays, lambdas, f-strings).
`numNode` is the deprecated `ast.Num` branch kept by the source.
`call` carries the keyword arguments of `ast.Call` (`node.keywords`). -/
inductive Ast where
  | constant (c : Cst)
  | numNode (c : Cst)
  | binOp (op : BinK) (left right : Ast)
  | unaryOp (op : UnK) (operand : Ast)
  | name (id : String)
  | call (func : Ast) (args : List Ast) (keywords : List (String × Ast))
  | attributeNode (value : Ast) (attr : String)
  | subscript (value : Ast) (index : Ast)
  | compare (left : Ast) (rest : List Ast)
  | boolOp (values : List Ast)
  | ifExp (test body orelse : Ast)
  | listNode (elts : List Ast)
  | tupleNode (elts : List Ast)
  | dictNode (pairs : List (Ast × Ast))
  | lambdaNode (body : Ast)
  | joinedStr (parts : List Ast)
deriving Repr

/-- Interpretation of the transcendental values the rational model cannot
express: the three constants and the function values, used only where the
domain checks of the source succeed.  All theorems hold for every
interpretation. -/
structure MathInterp where
  piV : ℚ
  eV : ℚ
  tauV : ℚ
  sinV : ℚ → ℚ
  cosV : ℚ → ℚ
  tanV : ℚ → ℚ
  asinV : ℚ → ℚ
  acosV : ℚ → ℚ
  atanV : ℚ → ℚ
  sqrtV : ℚ → ℚ
  logV : ℚ → ℚ
  log10V : ℚ → ℚ
  log2V : ℚ → ℚ
  expV : ℚ → ℚ
  log2argV : ℚ → ℚ → ℚ
  powV : ℚ → ℚ → ℚ

/-- Value of an `ast.Constant` payload. -/
def cstValue : Cst → Value
  | .intC n => .num (.intN n)
  | .floatC q => .num (.floatN q)
  | .boolC b => .boolV b
  | .strC s => .strV s
  | .noneC => .noneV

/-- Membership of a binary operator in the `OPS` table. -/
def opsHasBin : BinK → Bool
  | .add | .sub | .mult | .div | .pow | .mod => true
  | _ => false

/-- Numeric coercion performed implicitly by the Python arithmetic and math
functions: numbers stand for themselves, booleans are the integers 0/1
(`bool` is an `int` subclass); everything else is not a number. -/
def valueToNum : Value → Option PyNum
  | .num v => some v
  | .boolV b => some (.intN (if b then 1 else 0))
  | _ => none

/-- Rational magnitude of a Python number. -/
def numToQ : PyNum → ℚ
  | .intN n => (n : ℚ)
  | .floatN q => q

/-- Python `+` on numbers: int-int stays int, otherwise float. -/
def numAdd : PyNum → PyNum → PyNum
  | .intN a, .intN b => .intN (a + b)
  | x, y => .floatN (numToQ x + numToQ y)

/-- Python `-` on numbers. -/
def numSub : PyNum → PyNum → PyNum
  | .intN a, .intN b => .intN (a - b)
  | x, y => .floatN (numToQ x - numToQ y)

/-- Python `*` on numbers. -/
def numMul : PyNum → PyNum → PyNum
  | .intN a, .intN b => .intN (a * b)
  | x, y => .floatN (numToQ x * numToQ y)

/-- Python `%` on numbers with nonzero divisor: floored remainder, int-int
stays int (`Int.fmod` is Python's floored remainder), otherwise float. -/
def numMod : PyNum → PyNum → PyNum
  | .intN a, .intN b => .intN (Int.fmod a b)
  | x, y =>
    .floatN (numToQ x - numToQ y * ((Int.floor (numToQ x / numToQ y) : ℤ) : ℚ))

/-- Python `**` (`op.pow`): int-int with nonnegative exponent stays int;
zero base with negative exponent raises `ZeroDivisionError`; integral
exponents are computed exactly; non-integral exponents take the
interpretation's value (see the module docstring). -/
def pyPow (I : MathInterp) (x y : PyNum) : Except Err Value :=
  match x, y with
  | .intN a, .intN b =>
    if 0 ≤ b then .ok (.num (.intN (a ^ b.toNat)))
    else if a = 0 then .error .zeroDivisionError
    else .ok (.num (.floatN ((a : ℚ) ^ b)))
  | x, y =>
    if (numToQ y).den = 1 then
      if numToQ x = 0 ∧ numToQ y < 0 then .error .zeroDivisionError
      else .ok (.num (.floatN (numToQ x ^ (numToQ y).num)))
    else .ok (.num (.floatN (I.powV (numToQ x) (numToQ y))))

/-- Application of an `OPS` binary operator to two numbers. -/
def applyBinNum (I : MathInterp) (k : BinK) (x y : PyNum) : Except Err Value :=
  match k with
  | .add => .ok (.num (numAdd x y))
  | .sub => .ok (.num (numSub x y))
  | .mult => .ok (.num (numMul x y))
  | .div =>
    if numToQ y = 0 then .error .zeroDivisionError
    else .ok (.num (.floatN (numToQ x / numToQ y)))
  | .mod =>
    if numToQ y = 0 then .error .zeroDivisionError
    else .ok (.num (numMod x y))
  | .pow => pyPow I x y
  | _ => .error .keyError

/-- Application of an `OPS` binary operator to two values: string
concatenation for `+` on two strings (`TypeError` for the other operators on
strings), numeric coercion otherwise, `TypeError` when the operands are not
numbers. -/
def applyBin (I : MathInterp) (k : BinK) (a b : Value) : Except Err Value :=
  match a, b with
  | .strV s, .strV t =>
    if k = BinK.add then .ok (.strV (s ++ t)) else .error .typeError
  | a, b =>
    match valueToNum a, valueToNum b with
    | some x, some y => applyBinNum I k x y
    | _, _ => .error .typeError

/-- Application of `op.neg` (the only unary operator in `OPS`). -/
def applyUnary : Value → Except Err Value
  | .num (.intN a) => .ok (.num (.intN (-a)))
  | .num (.floatN q) => .ok (.num (.floatN (-q)))
  | .boolV b => .ok (.num (.intN (-(if b then 1 else 0))))
  | _ => .error .typeError

/-- One-argument whitelisted math functions with their exact domain checks;
values through the interpretation.  `convert` never reaches this function
(its arity is three). -/
def applyMath1 (I : MathInterp) (f : FuncV) (q : ℚ) : Except Err Value :=
  match f with
  | .sin => .ok (.num (.floatN (I.sinV q)))
  | .cos => .ok (.num (.floatN (I.cosV q)))
  | .tan => .ok (.num (.floatN (I.tanV q)))
  | .asin => if q < -1 ∨ 1 < q then .error .domainError else .ok (.num (.floatN (I.asinV q)))
  | .acos => if q < -1 ∨ 1 < q then .error .domainError else .ok (.num (.floatN (I.acosV q)))
  | .atan => .ok (.num (.floatN (I.atanV q)))
  | .sqrt => if q < 0 then .error .domainError else .ok (.num (.floatN (I.sqrtV q)))
  | .log => if q ≤ 0 then .error .domainError else .ok (.num (.floatN (I.logV q)))
  | .log10 => if q ≤ 0 then .error .domainError else .ok (.num (.floatN (I.log10V q)))
  | .log2 => if q ≤ 0 then .error .domainError else .ok (.num (.floatN (I.log2V q)))
  | .exp => .ok (.num (.floatN (I.expV q)))
  | .convert => .error .typeError

/-- Scaling step `val * T[fu] / T[tu]` of `_convert` at `Value` argument
type: the value is coerced as a number (`TypeError` otherwise, from the
failing multiplication), and the result is a float. -/
def convScale (a : Value) (s1 s2 : ℚ) : Except Err Value :=
  match valueToNum a with
  | some n => .ok (.num (.floatN (numToQ n * s1 / s2)))
  | none => .error .typeError

/-- The source's `_convert` as reached through the expression-level
`convert` callable: `from_u.lower()` / `to_u.lower()` raise
`AttributeError` first when the unit arguments are not strings; then the
same two-table lookup as `_convert`. -/
def convertCall (a b c : Value) : Except Err Value :=
  match b, c with
  | .strV fu, .strV tu =>
    match unitLookup VOL_ML (pyLower fu), unitLookup VOL_ML (pyLower tu) with
    | some s1, some s2 => convScale a s1 s2
    | _, _ =>
      match unitLookup MASS_G (pyLower fu), unitLookup MASS_G (pyLower tu) with
      | some s1, some s2 => convScale a s1 s2
      | _, _ => .error (.conversionError fu tu)
  | _, _ => .error .attributeError

/-- Unary whitelisted function applied to one value: numeric coercion then
`applyMath1`. -/
def applyMathArg (I : MathInterp) (f : FuncV) (a : Value) : Except Err Value :=
  match valueToNum a with
  | some x => applyMath1 I f (numToQ x)
  | none => .error .typeError

/-- Two-argument `math.log(x, base)`: domain errors on non-positive
arguments, `ZeroDivisionError` for base one (`log(base)` is zero and is
divided by). -/
def applyLog2 (I : MathInterp) (a b : Value) : Except Err Value :=
  match valueToNum a, valueToNum b with
  | some x, some y =>
    if numToQ x ≤ 0 then .error .domainError
    else if numToQ y ≤ 0 then .error .domainError
    else if numToQ y = 1 then .error .zeroDivisionError
    else .ok (.num (.floatN (I.log2argV (numToQ x) (numToQ y))))
  | _, _ => .error .typeError

/-- Application of a whitelisted callable to the evaluated positional
arguments: `convert` demands three arguments, `log` accepts one or two,
all other functions are unary; any other arity raises `TypeError`. -/
def applyFuncV (I : MathInterp) (f : FuncV) (args : List Value) : Except Err Value :=
  match f, args with
  | .convert, [a, b, c] => convertCall a b c
  | .convert, _ => .error .typeError
  | .log, [a, b] => applyLog2 I a b
  | f, [a] => applyMathArg I f a
  | _, _ => .error .typeError

/-- Python dict membership-plus-indexing on the symbol table. -/
def symLookup : List (String × Value) → String → Option Value
  | [], _ => none
  | (k, v) :: rest, u => if u = k then some v else symLookup rest u

/-- The `MATH_FUNCS` symbol table: the three constants map to floats, the
eleven function names and the injected `convert` map to callables. -/
def MATH_FUNCS (I : MathInterp) : List (String × Value) :=
  [("pi", .num (.floatN I.piV)), ("e", .num (.floatN I.eV)),
   ("tau", .num (.floatN I.tauV)),
   ("sin", .fn .sin), ("cos", .fn .cos), ("tan", .fn .tan),
   ("asin", .fn .asin), ("acos", .fn .acos), ("atan", .fn .atan),
   ("sqrt", .fn .sqrt), ("log", .fn .log), ("log10", .fn .log10),
   ("log2", .fn .log2), ("exp", .fn .exp), ("convert", .fn .convert)]

/-- Lookup of an identifier in the symbol table (`node.id in MATH_FUNCS`
plus `MATH_FUNCS[node.id]`). -/
def mathLookup (I : MathInterp) (id : String) : Option Value :=
  symLookup (MATH_FUNCS I) id

mutual

/-- The source's `_eval`, transcribed clause for clause.  Note the source's
operator lookup `OPS[type(node.op)]` happens before the operands are
evaluated, so an unsupported operator raises `KeyError` first; the keyword
arguments of a `Call` node are never read; every node kind without a
positive `isinstance` branch falls to the final
`ValueError(f"Unsupported node: ...")`. -/
def _eval (I : MathInterp) : Ast → Except Err Value
  | .constant c => .ok (cstValue c)
  | .numNode c => .ok (cstValue c)
  | .binOp k l r =>
    if opsHasBin k then
      match _eval I l with
      | .error e => .error e
      | .ok a =>
        match _eval I r with
        | .error e => .error e
        | .ok b => applyBin I k a b
    else .error .keyError
  | .unaryOp u e =>
    if u = UnK.usub then
      match _eval I e with
      | .error er => .error er
      | .ok a => applyUnary a
    else .error .keyError
  | .name id =>
    match mathLookup I id with
    | some v => .ok v
    | none => .error (.nameError id)
  | .call f args _ =>
    match _eval I f with
    | .error e => .error e
    | .ok fv =>
      match _evalList I args with
      | .error e => .error e
      | .ok vs =>
        match fv with
        | .fn g => applyFuncV I g vs
        | _ => .error .typeError
  | .attributeNode _ _ => .error (.unsupportedNode "Attribute")
  | .subscript _ _ => .error (.unsupportedNode "Subscript")
  | .compare _ _ => .error (.unsupportedNode "Compare")
  | .boolOp _ => .error (.unsupportedNode "BoolOp")
  | .ifExp _ _ _ => .error (.unsupportedNode "IfExp")
  | .listNode _ => .error (.unsupportedNode "List")
  | .tupleNode _ => .error (.unsupportedNode "Tuple")
  | .dictNode _ => .error (.unsupportedNode "Dict")
  | .lambdaNode _ => .error (.unsupportedNode "Lambda")
  | .joinedStr _ => .error (.unsupportedNode "JoinedStr")

/-- Left-to-right evaluation of the positional argument list of a call
(the source's `[_eval(a) for a in node.args]`). -/
def _evalList (I : MathInterp) : List Ast → Except Err (List Value)
  | [] => .ok []
  | a :: rest =>
    match _eval I a with
    | .error e => .error e
    | .ok v =>
      match _evalList I rest with
      | .error e => .error e
      | .ok vs => .ok (v :: vs)

end

/-- The integral-float normalization of `safe_eval`:
`isinstance(result, float) and result.is_integer()` becomes `int(result)`.
Booleans and integers are untouched (`isinstance(True, float)` is false). -/
def normalize : Value → Value
  | .num (.floatN q) => if q.den = 1 then .num (.intN q.num) else .num (.floatN q)
  | v => v

/-- The arithmetic half of `safe_eval`: parse (represented by its result),
evaluate, normalize. -/
def arithPath (I : MathInterp) (tree : Except Err Ast) : Except Err Value :=
  match tree with
  | .error e => .error e
  | .ok body =>
    match _eval I body with
    | .error e => .error e
    | .ok r => .ok (normalize r)

/-- The source's `safe_eval`: the unit-conversion shorthand is tried first
and its numeric result is returned directly (no normalization on that path);
only on `None` does control fall through to parsing and evaluation. -/
def safe_eval (I : MathInterp) (expr : String) (tree : Except Err Ast) :
    Except Err Value :=
  match try_unit_conversion expr with
  | .error e => .error e
  | .ok (some v) => .ok (.num (.floatN v))
  | .ok none => arithPath I tree

/-- Outbound shape of the service handler: `{result: ...}` or
`{error: ...}`, one constructor each. -/
inductive Response where
  | result (v : Value)
  | errorR (e : Err)
deriving DecidableEq, Repr

/-- The source's `handle_calculate`: `safe_eval` inside
`try: ... except Exception`, success mapped to the result shape, any raised
error mapped to the error shape (the `hass.states` write is an external
collaborator outside this model). -/
def handle_calculate (I : MathInterp) (expr : String) (tree : Except Err Ast) :
    Response :=
  match safe_eval I expr tree with
  | .ok v => .result v
  | .error e => .errorR e

/-- Head test used by the maximal-munch arguments: the list is empty or its
first character fails `p`. -/
def headNot (p : Char → Bool) : List Char → Bool
  | [] => true
  | c :: _ => !p c

/-- Head test for the completeness of the number group: the remainder after
the number starts with neither a digit nor a dot (or is empty). -/
def headSafe : List Char → Bool
  | [] => true
  | c :: _ => !isDig c && !(c == '.')

/-- Modelled from the spec (§4.2): the shape of the number group, "a decimal
number (integer or fractional, no sign, no exponent)". -/
def NumShape (num : List Char) : Prop :=
  (num ≠ [] ∧ num.all isDig = true) ∨
  (∃ d1 d2, num = d1 ++ '.' :: d2 ∧ d1 ≠ [] ∧ d2 ≠ [] ∧
    d1.all isDig = true ∧ d2.all isDig = true)

/-- Modelled from the spec (§4.2): the connector tokens
"{`to`, `in`, an arrow glyph, `>`}". -/
def ConnShape (cn : List Char) : Prop :=
  cn = ['t', 'o'] ∨ cn = ['i', 'n'] ∨ cn = ['→'] ∨ cn = ['>']

/-- Modelled from the spec (§4.2): the whole shorthand shape — optional
whitespace, a decimal number, whitespace, a unit token of letters and
underscores, a connector token surrounded by optional whitespace, a unit
token, optional trailing whitespace, end of input.  This is the claim-side
(declarative) description, to be compared with the executable `convMatch`
transcribed from `CONV_RE`. -/
def ShorthandShape (s : List Char) : Prop :=
  ∃ w1 num w2 u1 w3 cn w4 u2 w5,
    s = w1 ++ num ++ w2 ++ u1 ++ w3 ++ cn ++ w4 ++ u2 ++ w5 ∧
    w1.all isSpc = true ∧ w2.all isSpc = true ∧ w3.all isSpc = true ∧
    w4.all isSpc = true ∧ w5.all isSpc = true ∧
    NumShape num ∧
    u1 ≠ [] ∧ u1.all isLet = true ∧
    ConnShape cn ∧
    u2 ≠ [] ∧ u2.all isLet = true

/-- Numeric constant payload (integer or float literal; booleans, strings
and `None` are not numeric literals). -/
def cstNumeric : Cst → Bool
  | .intC _ => true
  | .floatC _ => true
  | _ => false

mutual

/-- Every literal the evaluator can reach in the tree is numeric (keyword
arguments and the unsupported node kinds are never evaluated, so their
content is unconstrained). -/
def numericLits : Ast → Bool
  | .constant c => cstNumeric c
  | .numNode c => cstNumeric c
  | .binOp _ l r => numericLits l && numericLits r
  | .unaryOp _ e => numericLits e
  | .name _ => true
  | .call f args _ => numericLits f && numericLitsList args
  | _ => true

/-- `numericLits` over an argument list. -/
def numericLitsList : List Ast → Bool
  | [] => true
  | a :: rest => numericLits a && numericLitsList rest

end

/-- Tester: the value is a number. -/
def isNumValue : Value → Bool
  | .num _ => true
  | _ => false

/-- Tester: the value is a whitelisted callable. -/
def isFnValue : Value → Bool
  | .fn _ => true
  | _ => false

/-- Tester: the error is a `NameError`. -/
def isNameErr : Err → Bool
  | .nameError _ => true
  | _ => false

/-- The identifiers of the fixed symbol table (`MATH_FUNCS` plus the
injected `convert`). -/
def mathNames : List String :=
  ["pi", "e", "tau", "sin", "cos", "tan", "asin", "acos", "atan",
   "sqrt", "log", "log10", "log2", "exp", "convert"]

/-- The unit (lowercased) is a volume alias. -/
def inVol (u : String) : Bool := (unitLookup VOL_ML (pyLower u)).isSome

/-- The unit (lowercased) is a mass alias. -/
def inMass (u : String) : Bool := (unitLookup MASS_G (pyLower u)).isSome

/-- A concrete interpretation (all placeholder values zero), used to
instantiate universally quantified theorems at concrete inputs. -/
def trivInterp : MathInterp :=
  ⟨0, 0, 0, fun _ => 0, fun _ => 0, fun _ => 0, fun _ => 0, fun _ => 0,
   fun _ => 0, fun _ => 0, fun _ => 0, fun _ => 0, fun _ => 0, fun _ => 0,
   fun _ _ => 0, fun _ _ => 0⟩

/-! Character-class facts used by the maximal-munch arguments. -/

theorem dig_not_spc {c : Char} (h : isDig c = true) : isSpc c = false := by
  simp only [isDig, Bool.and_eq_true, decide_eq_true_eq] at h
  simp only [isSpc, Bool.or_eq_false_iff, decide_eq_false_iff_not]
  omega

theorem spc_not_dig {c : Char} (h : isSpc c = true) : isDig c = false := by
  simp only [isSpc, Bool.or_eq_true, decide_eq_true_eq] at h
  simp only [isDig, Bool.and_eq_false_iff, decide_eq_false_iff_not]
  omega

theorem let_not_dig {c : Char} (h : isLet c = true) : isDig c = false := by
  simp only [isLet, Bool.or_eq_true, Bool.and_eq_true, decide_eq_true_eq] at h
  simp only [isDig, Bool.and_eq_false_iff, decide_eq_false_iff_not]
  omega

theorem let_not_spc {c : Char} (h : isLet c = true) : isSpc c = false := by
  simp only [isLet, Bool.or_eq_true, Bool.and_eq_true, decide_eq_true_eq] at h
  simp only [isSpc, Bool.or_eq_false_iff, decide_eq_false_iff_not]
  omega

theorem spc_not_let {c : Char} (h : isSpc c = true) : isLet c = false := by
  simp only [isSpc, Bool.or_eq_true, decide_eq_true_eq] at h
  simp only [isLet, Bool.or_eq_false_iff, Bool.and_eq_false_iff,
    decide_eq_false_iff_not]
  omega

theorem spc_not_dot {c : Char} (h : isSpc c = true) : c ≠ '.' := by
  intro he
  subst he
  exact absurd h (by decide)

theorem let_not_dot {c : Char} (h : isLet c = true) : c ≠ '.' := by
  intro he
  subst he
  exact absurd h (by decide)

/-! Facts about `spanP` and `dropSpaces`. -/

theorem spanP_fst_append_snd (p : Char → Bool) :
    ∀ s : List Char, (spanP p s).1 ++ (spanP p s).2 = s := by
  intro s
  induction s with
  | nil => rfl
  | cons c cs ih =>
    by_cases hc : p c
    · simp only [spanP, if_pos hc, List.cons_append, ih]
    · simp only [spanP, if_neg hc, List.nil_append]

theorem spanP_fst_all (p : Char → Bool) :
    ∀ s : List Char, (spanP p s).1.all p = true := by
  intro s
  induction s with
  | nil => rfl
  | cons c cs ih =>
    by_cases hc : p c
    · simp only [spanP, if_pos hc, List.all_cons, ih, Bool.and_true]
      exact hc
    · simp only [spanP, if_neg hc, List.all_nil]

theorem spanP_snd_headNot (p : Char → Bool) :
    ∀ s : List Char, headNot p (spanP p s).2 = true := by
  intro s
  induction s with
  | nil => rfl
  | cons c cs ih =>
    by_cases hc : p c
    · simpa only [spanP, if_pos hc] using ih
    · simp only [spanP, if_neg hc, headNot]
      simp [hc]

theorem spanP_headNot_eq {p : Char → Bool} {r : List Char}
    (h : headNot p r = true) : spanP p r = ([], r) := by
  cases r with
  | nil => rfl
  | cons c cs =>
    simp only [headNot, Bool.not_eq_true'] at h
    simp [spanP, h]

theorem spanP_all_left {p : Char → Bool} :
    ∀ (x t : List Char), x.all p = true →
      spanP p (x ++ t) = (x ++ (spanP p t).1, (spanP p t).2) := by
  intro x
  induction x with
  | nil => intro t _; simp
  | cons c cs ih =>
    intro t hx
    simp only [List.all_cons, Bool.and_eq_true] at hx
    simp only [List.cons_append, spanP, if_pos hx.1]
    simp [ih t hx.2]

theorem spanP_append {p : Char → Bool} {d r : List Char}
    (hd : d.all p = true) (hr : headNot p r = true) :
    spanP p (d ++ r) = (d, r) := by
  rw [spanP_all_left d r hd, spanP_headNot_eq hr]
  simp

theorem dropSpaces_all_left {w : List Char} (t : List Char)
    (hw : w.all isSpc = true) : dropSpaces (w ++ t) = dropSpaces t := by
  induction w with
  | nil => rfl
  | cons c cs ih =>
    simp only [List.all_cons, Bool.and_eq_true] at hw
    simp only [List.cons_append, dropSpaces, if_pos hw.1]
    exact ih hw.2

theorem dropSpaces_headNot {t : List Char} (h : headNot isSpc t = true) :
    dropSpaces t = t := by
  cases t with
  | nil => rfl
  | cons c cs =>
    simp only [headNot, Bool.not_eq_true'] at h
    simp [dropSpaces, h]

theorem dropSpaces_of_all {w : List Char} (hw : w.all isSpc = true) :
    dropSpaces w = [] := by
  have h := dropSpaces_all_left (w := w) [] hw
  simpa using h

theorem all_of_dropSpaces_nil : ∀ {t : List Char}, dropSpaces t = [] →
    t.all isSpc = true := by
  intro t
  induction t with
  | nil => intro _; rfl
  | cons c cs ih =>
    intro h
    by_cases hc : isSpc c
    · simp only [dropSpaces, if_pos hc] at h
      simp [List.all_cons, hc, ih h]
    · simp only [dropSpaces, if_neg hc] at h
      exact absurd h (by simp)

theorem dropSpaces_decomp (s : List Char) :
    ∃ w, s = w ++ dropSpaces s ∧ w.all isSpc = true ∧
      headNot isSpc (dropSpaces s) = true := by
  induction s with
  | nil => exact ⟨[], rfl, rfl, rfl⟩
  | cons c cs ih =>
    by_cases hc : isSpc c
    · obtain ⟨w, hw, hall, hhd⟩ := ih
      refine ⟨c :: w, ?_, ?_, ?_⟩
      · simp only [dropSpaces, if_pos hc, List.cons_append]
        exact congrArg (c :: ·) hw
      · simp [List.all_cons, hc, hall]
      · simpa only [dropSpaces, if_pos hc] using hhd
    · refine ⟨[], ?_, rfl, ?_⟩
      · simp [dropSpaces, if_neg hc]
      · simp only [dropSpaces, if_neg hc, headNot]
        simp [hc]

/-! Facts about the connector matcher. -/

theorem matchConn_sound {t r : List Char} (h : matchConn t = some r) :
    ∃ cn, ConnShape cn ∧ t = cn ++ r := by
  unfold matchConn at h
  split_ifs at h with h1 h2 h3 h4
  · refine ⟨['t', 'o'], Or.inl rfl, ?_⟩
    injection h with h0
    rw [← h0, ← h1]
    exact (List.take_append_drop 2 t).symm
  · refine ⟨['i', 'n'], Or.inr (Or.inl rfl), ?_⟩
    injection h with h0
    rw [← h0, ← h2]
    exact (List.take_append_drop 2 t).symm
  · refine ⟨['→'], Or.inr (Or.inr (Or.inl rfl)), ?_⟩
    injection h with h0
    rw [← h0, ← h3]
    exact (List.take_append_drop 1 t).symm
  · refine ⟨['>'], Or.inr (Or.inr (Or.inr rfl)), ?_⟩
    injection h with h0
    rw [← h0, ← h4]
    exact (List.take_append_drop 1 t).symm

theorem matchConn_conn {cn : List Char} (r : List Char) (h : ConnShape cn) :
    matchConn (cn ++ r) = some r := by
  rcases h with h | h | h | h <;> subst h <;> rfl

theorem connShape_head_spc {cn : List Char} (X : List Char) (h : ConnShape cn) :
    headNot isSpc (cn ++ X) = true := by
  rcases h with h | h | h | h <;> subst h <;> rfl

/-! Facts about `tailMatch`. -/

theorem tailMatch_sound {rest u2 : List Char} (h : tailMatch rest = some u2) :
    ∃ w3 cn w4 w5, rest = w3 ++ (cn ++ (w4 ++ (u2 ++ w5))) ∧
      w3.all isSpc = true ∧ ConnShape cn ∧ w4.all isSpc = true ∧
      u2 ≠ [] ∧ u2.all isLet = true ∧ w5.all isSpc = true := by
  rcases hm : matchConn (dropSpaces rest) with _ | r2
  · simp only [tailMatch, hm] at h
    exact Option.noConfusion h
  · rcases hp : spanP isLet (dropSpaces r2) with ⟨u2x, r3⟩
    simp only [tailMatch, hm, hp] at h
    split_ifs at h with he hd
    injection h with h0
    subst h0
    obtain ⟨cn, hcn, hr⟩ := matchConn_sound hm
    obtain ⟨w3, hw3, hall3, _⟩ := dropSpaces_decomp rest
    obtain ⟨w4, hw4, hall4, _⟩ := dropSpaces_decomp r2
    have hsplit : u2x ++ r3 = dropSpaces r2 := by
      have := spanP_fst_append_snd isLet (dropSpaces r2)
      rw [hp] at this
      exact this
    have hall2 : u2x.all isLet = true := by
      have := spanP_fst_all isLet (dropSpaces r2)
      rw [hp] at this
      exact this
    refine ⟨w3, cn, w4, r3, ?_, hall3, hcn, hall4, ?_, hall2, ?_⟩
    · rw [hw3, hr, hw4, ← hsplit]
    · intro hnil
      subst hnil
      simp at he
    · apply all_of_dropSpaces_nil
      simpa using hd

theorem tailMatch_complete {w3 cn w4 u2 w5 : List Char}
    (h3 : w3.all isSpc = true) (hc : ConnShape cn) (h4 : w4.all isSpc = true)
    (hu : u2 ≠ []) (hl : u2.all isLet = true) (h5 : w5.all isSpc = true) :
    tailMatch (w3 ++ (cn ++ (w4 ++ (u2 ++ w5)))) = some u2 := by
  have hd1 : dropSpaces (w3 ++ (cn ++ (w4 ++ (u2 ++ w5)))) =
      cn ++ (w4 ++ (u2 ++ w5)) := by
    rw [dropSpaces_all_left _ h3]
    exact dropSpaces_headNot (connShape_head_spc _ hc)
  have hu2head : headNot isSpc (u2 ++ w5) = true := by
    cases u2 with
    | nil => exact absurd rfl hu
    | cons c t =>
      simp only [List.all_cons, Bool.and_eq_true] at hl
      simp only [List.cons_append, headNot, let_not_spc hl.1, Bool.not_false]
  have hd2 : dropSpaces (w4 ++ (u2 ++ w5)) = u2 ++ w5 := by
    rw [dropSpaces_all_left _ h4]
    exact dropSpaces_headNot hu2head
  have hw5head : headNot isLet w5 = true := by
    cases w5 with
    | nil => rfl
    | cons c t =>
      simp only [List.all_cons, Bool.and_eq_true] at h5
      simp only [headNot, spc_not_let h5.1, Bool.not_false]
  have hne : u2.isEmpty = false := by
    cases u2 with
    | nil => exact absurd rfl hu
    | cons c t => rfl
  simp only [tailMatch, hd1, matchConn_conn _ hc, hd2, spanP_append hl hw5head]
  simp [hne, dropSpaces_of_all h5]

/-! Facts about the backtracking split search. -/

theorem trySplits_sound {run rest : List Char} :
    ∀ k u1 u2, trySplits run rest k = some (u1, u2) →
      ∃ j, 1 ≤ j ∧ j ≤ k ∧ u1 = run.take j ∧
        tailMatch (run.drop j ++ rest) = some u2 := by
  intro k
  induction k with
  | zero =>
    intro u1 u2 h
    exact absurd h (by simp [trySplits])
  | succ k ih =>
    intro u1 u2 h
    rcases hm : tailMatch (run.drop (k + 1) ++ rest) with _ | u2x
    · rw [trySplits, hm] at h
      obtain ⟨j, hj1, hjk, hu, ht⟩ := ih u1 u2 h
      exact ⟨j, hj1, Nat.le_succ_of_le hjk, hu, ht⟩
    · rw [trySplits, hm] at h
      injection h with h0
      have h1 : run.take (k + 1) = u1 := congrArg Prod.fst h0
      have h2 : u2x = u2 := congrArg Prod.snd h0
      refine ⟨k + 1, Nat.succ_le_succ (Nat.zero_le k), le_refl _, h1.symm, ?_⟩
      rw [h2] at hm
      exact hm

theorem trySplits_complete {run rest : List Char} :
    ∀ k j u2, 1 ≤ j → j ≤ k → tailMatch (run.drop j ++ rest) = some u2 →
      ∃ out, trySplits run rest k = some out := by
  intro k
  induction k with
  | zero =>
    intro j u2 hj1 hj0 _
    omega
  | succ k ih =>
    intro j u2 hj1 hjk h
    rcases hm : tailMatch (run.drop (k + 1) ++ rest) with _ | u2x
    · have hjk2 : j ≤ k := by
        rcases Nat.lt_or_ge j (k + 1) with hlt | hge
        · omega
        · exfalso
          have : j = k + 1 := by omega
          rw [this] at h
          rw [hm] at h
          exact Option.noConfusion h
      obtain ⟨out, hout⟩ := ih j u2 hj1 hjk2 h
      exact ⟨out, by rw [trySplits, hm]; exact hout⟩
    · exact ⟨(run.take (k + 1), u2x), by rw [trySplits, hm]⟩

/-! Facts about the number group and the whole `CONV_RE` match. -/

theorem isEmpty_false_of_ne {α : Type} {l : List α} (h : l ≠ []) :
    l.isEmpty = false := by
  cases l with
  | nil => exact absurd rfl h
  | cons a t => rfl

theorem ne_nil_of_isEmpty_false {α : Type} {l : List α}
    (h : l.isEmpty = false) : l ≠ [] := by
  cases l with
  | nil => exact absurd h (by simp)
  | cons a t => simp

theorem all_take {p : Char → Bool} {l : List Char} (j : ℕ)
    (h : l.all p = true) : (l.take j).all p = true := by
  rw [List.all_eq_true] at h ⊢
  intro x hx
  exact h x (List.take_subset j l hx)

theorem headSafe_headNot_dig {r : List Char} (h : headSafe r = true) :
    headNot isDig r = true := by
  cases r with
  | nil => rfl
  | cons c t =>
    simp only [headSafe, Bool.and_eq_true] at h
    simpa only [headNot] using h.1

theorem headSafe_append {w u X : List Char} (hw : w.all isSpc = true)
    (hu : u ≠ []) (hl : u.all isLet = true) :
    headSafe (w ++ (u ++ X)) = true := by
  cases w with
  | cons c t =>
    simp only [List.all_cons, Bool.and_eq_true] at hw
    simp only [List.cons_append, headSafe, Bool.and_eq_true, Bool.not_eq_true',
      beq_eq_false_iff_ne]
    exact ⟨spc_not_dig hw.1, spc_not_dot hw.1⟩
  | nil =>
    cases u with
    | nil => exact absurd rfl hu
    | cons c t =>
      simp only [List.all_cons, Bool.and_eq_true] at hl
      simp only [List.nil_append, List.cons_append, headSafe, Bool.and_eq_true,
        Bool.not_eq_true', beq_eq_false_iff_ne]
      exact ⟨let_not_dig hl.1, let_not_dot hl.1⟩

theorem numShape_head {num : List Char} (h : NumShape num) :
    ∃ c t, num = c :: t ∧ isDig c = true := by
  rcases h with ⟨hne, hall⟩ | ⟨d1, d2, heq, h1ne, _, h1all, _⟩
  · cases num with
    | nil => exact absurd rfl hne
    | cons c t =>
      simp only [List.all_cons, Bool.and_eq_true] at hall
      exact ⟨c, t, rfl, hall.1⟩
  · cases d1 with
    | nil => exact absurd rfl h1ne
    | cons c t =>
      simp only [List.all_cons, Bool.and_eq_true] at h1all
      exact ⟨c, t ++ '.' :: d2, by rw [heq]; simp, h1all.1⟩

theorem convFrac_nil {ds : List Char} : convFrac ds [] = some (ds, [], []) := rfl

theorem convFrac_default {ds : List Char} {c : Char} {t : List Char}
    (hc : c ≠ '.') : convFrac ds (c :: t) = some (ds, [], c :: t) := by
  unfold convFrac
  split
  · next t2 heq =>
    injection heq with hh _
    exact absurd hh hc
  · rfl

theorem convFrac_sound {ds r1 a b c2 : List Char}
    (h : convFrac ds r1 = some (a, b, c2)) :
    a = ds ∧ ((b = [] ∧ c2 = r1) ∨
      (b ≠ [] ∧ b.all isDig = true ∧ r1 = '.' :: (b ++ c2))) := by
  cases r1 with
  | nil =>
    rw [convFrac_nil] at h
    injection h with h0
    have h1 : a = ds := (congrArg (fun t => t.1) h0).symm
    have h2 : b = [] := (congrArg (fun t => t.2.1) h0).symm
    have h3 : c2 = ([] : List Char) := (congrArg (fun t => t.2.2) h0).symm
    exact ⟨h1, Or.inl ⟨h2, h3⟩⟩
  | cons c t =>
    by_cases hc : c = '.'
    · subst hc
      rcases hq : spanP isDig t with ⟨f2, r3⟩
      simp only [convFrac, hq] at h
      split_ifs at h with he
      · injection h with h0
        have h1 : a = ds := (congrArg (fun t => t.1) h0).symm
        have h2 : b = [] := (congrArg (fun t => t.2.1) h0).symm
        have h3 : c2 = '.' :: t := (congrArg (fun t => t.2.2) h0).symm
        exact ⟨h1, Or.inl ⟨h2, h3⟩⟩
      · injection h with h0
        have h1 : a = ds := (congrArg (fun t => t.1) h0).symm
        have h2 : b = f2 := (congrArg (fun t => t.2.1) h0).symm
        have h3 : c2 = r3 := (congrArg (fun t => t.2.2) h0).symm
        subst h2
        subst h3
        refine ⟨h1, Or.inr ⟨?_, ?_, ?_⟩⟩
        · intro hnil
          subst hnil
          simp at he
        · have := spanP_fst_all isDig t
          rw [hq] at this
          exact this
        · have := spanP_fst_append_snd isDig t
          rw [hq] at this
          rw [this]
    · rw [convFrac_default hc] at h
      injection h with h0
      have h1 : a = ds := (congrArg (fun t => t.1) h0).symm
      have h2 : b = [] := (congrArg (fun t => t.2.1) h0).symm
      have h3 : c2 = c :: t := (congrArg (fun t => t.2.2) h0).symm
      exact ⟨h1, Or.inl ⟨h2, h3⟩⟩

theorem convNum_sound {s1 ds fs r2 : List Char}
    (h : convNum s1 = some (ds, fs, r2)) :
    ∃ num, s1 = num ++ r2 ∧ NumShape num := by
  rcases hq : spanP isDig s1 with ⟨dsx, r1⟩
  simp only [convNum, hq] at h
  split_ifs at h with he
  have hsp1 : dsx ++ r1 = s1 := by
    have := spanP_fst_append_snd isDig s1
    rw [hq] at this
    exact this
  have hall : dsx.all isDig = true := by
    have := spanP_fst_all isDig s1
    rw [hq] at this
    exact this
  have hne : dsx ≠ [] := by
    intro hnil
    subst hnil
    simp at he
  obtain ⟨ha, hrest⟩ := convFrac_sound h
  subst ha
  rcases hrest with ⟨hb, hc2⟩ | ⟨hbne, hball, hr1⟩
  · subst hb
    exact ⟨ds, by rw [← hsp1, hc2], Or.inl ⟨hne, hall⟩⟩
  · refine ⟨ds ++ '.' :: fs, ?_, Or.inr ⟨ds, fs, rfl, hne, hbne, hall, hball⟩⟩
    rw [← hsp1, hr1]
    simp

theorem convNum_complete {num r : List Char} (hn : NumShape num)
    (hr : headSafe r = true) :
    ∃ ds fs, convNum (num ++ r) = some (ds, fs, r) := by
  rcases hn with ⟨hne, hall⟩ | ⟨d1, d2, heq, h1ne, h2ne, h1all, h2all⟩
  · have hsp : spanP isDig (num ++ r) = (num, r) :=
      spanP_append hall (headSafe_headNot_dig hr)
    refine ⟨num, [], ?_⟩
    simp only [convNum, hsp, isEmpty_false_of_ne hne]
    simp only [Bool.false_eq_true, if_false]
    cases r with
    | nil => exact convFrac_nil
    | cons c t =>
      simp only [headSafe, Bool.and_eq_true, Bool.not_eq_true',
        beq_eq_false_iff_ne] at hr
      exact convFrac_default hr.2
  · subst heq
    have hgr : (d1 ++ '.' :: d2) ++ r = d1 ++ ('.' :: (d2 ++ r)) := by simp
    have hdothead : headNot isDig ('.' :: (d2 ++ r)) = true := rfl
    have hsp : spanP isDig (d1 ++ ('.' :: (d2 ++ r))) = (d1, '.' :: (d2 ++ r)) :=
      spanP_append h1all hdothead
    have hsp2 : spanP isDig (d2 ++ r) = (d2, r) :=
      spanP_append h2all (headSafe_headNot_dig hr)
    refine ⟨d1, d2, ?_⟩
    rw [hgr]
    simp only [convNum, hsp, isEmpty_false_of_ne h1ne]
    simp only [Bool.false_eq_true, if_false]
    simp only [convFrac, hsp2, isEmpty_false_of_ne h2ne]
    simp

theorem convUnits_sound {r2 u1 u2 : List Char}
    (h : convUnits r2 = some (u1, u2)) :
    ∃ w2 w3 cn w4 w5,
      r2 = w2 ++ (u1 ++ (w3 ++ (cn ++ (w4 ++ (u2 ++ w5))))) ∧
      w2.all isSpc = true ∧ u1 ≠ [] ∧ u1.all isLet = true ∧
      w3.all isSpc = true ∧ ConnShape cn ∧ w4.all isSpc = true ∧
      u2 ≠ [] ∧ u2.all isLet = true ∧ w5.all isSpc = true := by
  rcases hp : spanP isLet (dropSpaces r2) with ⟨run, r5⟩
  simp only [convUnits, hp] at h
  split_ifs at h with he
  obtain ⟨j, hj1, hjle, hu1, htm⟩ := trySplits_sound _ u1 u2 h
  obtain ⟨w3, cn, w4, w5, heq, h3, hcn, h4, hu2ne, hu2l, h5⟩ := tailMatch_sound htm
  obtain ⟨w2, hw2, hw2all, _⟩ := dropSpaces_decomp r2
  have hrun : run ++ r5 = dropSpaces r2 := by
    have := spanP_fst_append_snd isLet (dropSpaces r2)
    rw [hp] at this
    exact this
  have hrunall : run.all isLet = true := by
    have := spanP_fst_all isLet (dropSpaces r2)
    rw [hp] at this
    exact this
  have hu1all : u1.all isLet = true := by
    rw [hu1]
    exact all_take j hrunall
  have hu1ne : u1 ≠ [] := by
    rw [hu1]
    intro hnil
    rw [List.take_eq_nil_iff] at hnil
    rcases hnil with h0 | h0
    · omega
    · subst h0
      simp at he
  refine ⟨w2, w3, cn, w4, w5, ?_, hw2all, hu1ne, hu1all, h3, hcn, h4,
    hu2ne, hu2l, h5⟩
  calc r2 = w2 ++ dropSpaces r2 := hw2
    _ = w2 ++ (run ++ r5) := by rw [hrun]
    _ = w2 ++ ((run.take j ++ run.drop j) ++ r5) := by
        rw [List.take_append_drop]
    _ = w2 ++ (run.take j ++ (run.drop j ++ r5)) := by rw [List.append_assoc]
    _ = w2 ++ (u1 ++ (w3 ++ (cn ++ (w4 ++ (u2 ++ w5))))) := by rw [← hu1, heq]

theorem convUnits_complete {w2 u1 w3 cn w4 u2 w5 : List Char}
    (hw2 : w2.all isSpc = true) (hu1ne : u1 ≠ []) (hu1l : u1.all isLet = true)
    (h3 : w3.all isSpc = true) (hcn : ConnShape cn) (h4 : w4.all isSpc = true)
    (hu2ne : u2 ≠ []) (hu2l : u2.all isLet = true) (h5 : w5.all isSpc = true) :
    ∃ out, convUnits
      (w2 ++ (u1 ++ (w3 ++ (cn ++ (w4 ++ (u2 ++ w5)))))) = some out := by
  have hu1head : headNot isSpc (u1 ++ (w3 ++ (cn ++ (w4 ++ (u2 ++ w5))))) = true := by
    cases u1 with
    | nil => exact absurd rfl hu1ne
    | cons c t =>
      simp only [List.all_cons, Bool.and_eq_true] at hu1l
      simp only [List.cons_append, headNot, let_not_spc hu1l.1, Bool.not_false]
  have hd : dropSpaces (w2 ++ (u1 ++ (w3 ++ (cn ++ (w4 ++ (u2 ++ w5)))))) =
      u1 ++ (w3 ++ (cn ++ (w4 ++ (u2 ++ w5)))) := by
    rw [dropSpaces_all_left _ hw2]
    exact dropSpaces_headNot hu1head
  rcases hq : spanP isLet (w3 ++ (cn ++ (w4 ++ (u2 ++ w5)))) with ⟨e, r5⟩
  have hsp : spanP isLet (u1 ++ (w3 ++ (cn ++ (w4 ++ (u2 ++ w5))))) =
      (u1 ++ e, r5) := by
    rw [spanP_all_left u1 _ hu1l, hq]
  have heT : e ++ r5 = w3 ++ (cn ++ (w4 ++ (u2 ++ w5))) := by
    have := spanP_fst_append_snd isLet (w3 ++ (cn ++ (w4 ++ (u2 ++ w5))))
    rw [hq] at this
    exact this
  have hrun_ne : (u1 ++ e).isEmpty = false := by
    cases u1 with
    | nil => exact absurd rfl hu1ne
    | cons c t => rfl
  have h1le : 1 ≤ u1.length := by
    cases u1 with
    | nil => exact absurd rfl hu1ne
    | cons c t => simp
  have hjk : u1.length ≤ (u1 ++ e).length := by
    rw [List.length_append]
    omega
  have htm : tailMatch ((u1 ++ e).drop u1.length ++ r5) = some u2 := by
    rw [List.drop_left, heT]
    exact tailMatch_complete h3 hcn h4 hu2ne hu2l h5
  obtain ⟨out, hout⟩ := trySplits_complete _ u1.length u2 h1le hjk htm
  refine ⟨out, ?_⟩
  simp only [convUnits, hd, hsp, hrun_ne]
  simp only [Bool.false_eq_true, if_false]
  rw [List.length_append] at hout ⊢
  exact hout

theorem shape_of_convMatch {s : List Char} {out : ℚ × String × String}
    (h : convMatch s = some out) : ShorthandShape s := by
  rcases hn : convNum (dropSpaces s) with _ | ⟨ds, fs, r2⟩
  · simp only [convMatch, hn] at h
    exact Option.noConfusion h
  · rcases hu : convUnits r2 with _ | ⟨u1, u2⟩
    · simp only [convMatch, hn, hu] at h
      exact Option.noConfusion h
    · obtain ⟨w1, hw1, hall1, _⟩ := dropSpaces_decomp s
      obtain ⟨num, hnum, hshape⟩ := convNum_sound hn
      obtain ⟨w2, w3, cn, w4, w5, hr2, hw2all, hu1ne, hu1l, h3, hcn, h4,
        hu2ne, hu2l, h5⟩ := convUnits_sound hu
      refine ⟨w1, num, w2, u1, w3, cn, w4, u2, w5, ?_, hall1, hw2all, h3, h4,
        h5, hshape, hu1ne, hu1l, hcn, hu2ne, hu2l⟩
      rw [hw1, hnum, hr2]
      simp [List.append_assoc]

theorem convMatch_of_shape {s : List Char} (h : ShorthandShape s) :
    (convMatch s).isSome = true := by
  obtain ⟨w1, num, w2, u1, w3, cn, w4, u2, w5, hs, h1, h2, h3, h4, h5, hn,
    hu1ne, hu1l, hcn, hu2ne, hu2l⟩ := h
  subst hs
  have hflat : w1 ++ num ++ w2 ++ u1 ++ w3 ++ cn ++ w4 ++ u2 ++ w5 =
      w1 ++ (num ++ (w2 ++ (u1 ++ (w3 ++ (cn ++ (w4 ++ (u2 ++ w5))))))) := by
    simp [List.append_assoc]
  rw [hflat]
  obtain ⟨c, t, hnum_eq, hdig⟩ := numShape_head hn
  have hnumhead : headNot isSpc
      (num ++ (w2 ++ (u1 ++ (w3 ++ (cn ++ (w4 ++ (u2 ++ w5))))))) = true := by
    rw [hnum_eq]
    simp only [List.cons_append, headNot, dig_not_spc hdig, Bool.not_false]
  have hd1 : dropSpaces
      (w1 ++ (num ++ (w2 ++ (u1 ++ (w3 ++ (cn ++ (w4 ++ (u2 ++ w5)))))))) =
      num ++ (w2 ++ (u1 ++ (w3 ++ (cn ++ (w4 ++ (u2 ++ w5)))))) := by
    rw [dropSpaces_all_left _ h1]
    exact dropSpaces_headNot hnumhead
  have hsafe : headSafe (w2 ++ (u1 ++ (w3 ++ (cn ++ (w4 ++ (u2 ++ w5)))))) =
      true := headSafe_append h2 hu1ne hu1l
  obtain ⟨ds, fs, hcnum⟩ := convNum_complete hn hsafe
  obtain ⟨outu, hcu⟩ := convUnits_complete h2 hu1ne hu1l h3 hcn h4 hu2ne hu2l h5
  rcases outu with ⟨g1, g2⟩
  simp only [convMatch, hd1, hcnum, hcu]
  rfl

/-! Facts about the unit tables. -/

theorem unitLookup_isSome_mem :
    ∀ (l : List (String × ℚ)) (s : String),
      (unitLookup l s).isSome = true → ∃ p ∈ l, s = p.1 := by
  intro l
  induction l with
  | nil => intro s h; simp [unitLookup] at h
  | cons kv rest ih =>
    intro s h
    rcases kv with ⟨k, v⟩
    by_cases hs : s = k
    · exact ⟨(k, v), by simp, hs⟩
    · simp only [unitLookup, if_neg hs] at h
      obtain ⟨p, hp, hsp⟩ := ih s h
      exact ⟨p, by simp [hp], hsp⟩

theorem vol_mass_keys : ∀ p ∈ VOL_ML, ∀ q ∈ MASS_G, p.1 ≠ q.1 := by decide

theorem vol_mass_disjoint {s : String}
    (h1 : (unitLookup VOL_ML s).isSome = true)
    (h2 : (unitLookup MASS_G s).isSome = true) : False := by
  obtain ⟨p, hp, hsp⟩ := unitLookup_isSome_mem _ _ h1
  obtain ⟨q, hq, hsq⟩ := unitLookup_isSome_mem _ _ h2
  exact vol_mass_keys p hp q hq (hsp.symm.trans hsq)

theorem vol_none_of_mass {s : String}
    (h : (unitLookup MASS_G s).isSome = true) :
    unitLookup VOL_ML s = none := by
  rcases ho : unitLookup VOL_ML s with _ | x
  · rfl
  · exact (vol_mass_disjoint (by simp [ho]) h).elim

theorem mass_none_of_vol {s : String}
    (h : (unitLookup VOL_ML s).isSome = true) :
    unitLookup MASS_G s = none := by
  rcases ho : unitLookup MASS_G s with _ | x
  · rfl
  · exact (vol_mass_disjoint h (by simp [ho])).elim

/-! Goodness of evaluation results: every successful evaluation of a tree
whose reachable literals are numeric yields a number or a whitelisted
callable. -/

theorem symLookup_mem_values :
    ∀ (l : List (String × Value)) (s : String) (v : Value),
      symLookup l s = some v → v ∈ l.map Prod.snd := by
  intro l
  induction l with
  | nil => intro s v h; exact Option.noConfusion h
  | cons kv rest ih =>
    intro s v h
    rcases kv with ⟨k, w⟩
    by_cases hs : s = k
    · simp only [symLookup, if_pos hs] at h
      injection h with h0
      simp [← h0]
    · simp only [symLookup, if_neg hs] at h
      simp [ih s v h]

theorem symLookup_none :
    ∀ (l : List (String × Value)) (s : String),
      (∀ p ∈ l, s ≠ p.1) → symLookup l s = none := by
  intro l
  induction l with
  | nil => intro s _; rfl
  | cons kv rest ih =>
    intro s h
    rcases kv with ⟨k, w⟩
    have hk : s ≠ k := h (k, w) (by simp)
    simp only [symLookup, if_neg hk]
    exact ih s (fun p hp => h p (by simp [hp]))

theorem mathLookup_good {I : MathInterp} {id : String} {v : Value}
    (h : mathLookup I id = some v) : (isNumValue v || isFnValue v) = true := by
  have hv := symLookup_mem_values _ _ _ h
  simp only [MATH_FUNCS, List.map, List.mem_cons, List.not_mem_nil,
    or_false] at hv
  rcases hv with h0 | h0 | h0 | h0 | h0 | h0 | h0 | h0 | h0 | h0 | h0 | h0 |
    h0 | h0 | h0 <;> subst h0 <;> rfl

theorem mathLookup_none {I : MathInterp} {id : String} (h : id ∉ mathNames) :
    mathLookup I id = none := by
  apply symLookup_none
  intro p hp
  fin_cases hp <;> (intro he; apply h; rw [he]; simp [mathNames])

theorem pyPow_isNum {I : MathInterp} {x y : PyNum} {v : Value}
    (h : pyPow I x y = .ok v) : isNumValue v = true := by
  rcases x with a | qa <;> rcases y with b | qb <;> simp only [pyPow] at h <;>
    split_ifs at h <;> first
      | (injection h with h0; rw [← h0]; rfl)
      | exact Except.noConfusion h

theorem applyBinNum_isNum {I : MathInterp} {k : BinK} {x y : PyNum} {v : Value}
    (h : applyBinNum I k x y = .ok v) : isNumValue v = true := by
  cases k <;> simp only [applyBinNum] at h <;>
    first
      | exact pyPow_isNum h
      | (split_ifs at h <;> first
          | (injection h with h0; rw [← h0]; rfl)
          | exact Except.noConfusion h)
      | (injection h with h0; rw [← h0]; rfl)
      | exact Except.noConfusion h

theorem applyUnary_isNum {a v : Value} (h : applyUnary a = .ok v) :
    isNumValue v = true := by
  rcases a with x | s | b | _ | f
  · rcases x with n | q <;> simp only [applyUnary] at h <;>
      (injection h with h0; rw [← h0]; rfl)
  · exact Except.noConfusion h
  · simp only [applyUnary] at h
    injection h with h0
    rw [← h0]
    rfl
  · exact Except.noConfusion h
  · exact Except.noConfusion h

theorem applyMath1_isNum {I : MathInterp} {f : FuncV} {q : ℚ} {v : Value}
    (h : applyMath1 I f q = .ok v) : isNumValue v = true := by
  cases f <;> simp only [applyMath1] at h <;>
    first
      | (split_ifs at h <;> first
          | (injection h with h0; rw [← h0]; rfl)
          | exact Except.noConfusion h)
      | (injection h with h0; rw [← h0]; rfl)
      | exact Except.noConfusion h

theorem applyMathArg_isNum {I : MathInterp} {f : FuncV} {a : Value} {v : Value}
    (h : applyMathArg I f a = .ok v) : isNumValue v = true := by
  rcases hn : valueToNum a with _ | x
  · simp only [applyMathArg, hn] at h
    exact Except.noConfusion h
  · simp only [applyMathArg, hn] at h
    exact applyMath1_isNum h

theorem applyLog2_isNum {I : MathInterp} {a b : Value} {v : Value}
    (h : applyLog2 I a b = .ok v) : isNumValue v = true := by
  rcases hn : valueToNum a with _ | x <;> rcases hm : valueToNum b with _ | y <;>
    simp only [applyLog2, hn, hm] at h <;>
    first
      | (split_ifs at h <;> first
          | (injection h with h0; rw [← h0]; rfl)
          | exact Except.noConfusion h)
      | exact Except.noConfusion h

theorem convScale_isNum {a : Value} {s1 s2 : ℚ} {v : Value}
    (h : convScale a s1 s2 = .ok v) : isNumValue v = true := by
  rcases hn : valueToNum a with _ | x <;> simp only [convScale, hn] at h
  · exact Except.noConfusion h
  · injection h with h0
    rw [← h0]
    rfl

theorem convertCall_isNum {a b c : Value} {v : Value}
    (h : convertCall a b c = .ok v) : isNumValue v = true := by
  rcases b with x | fu | x | _ | x <;> rcases c with y | tu | y | _ | y <;>
    simp only [convertCall] at h <;> try exact Except.noConfusion h
  rcases h1 : unitLookup VOL_ML (pyLower fu) with _ | s1 <;>
    rcases h2 : unitLookup VOL_ML (pyLower tu) with _ | s2 <;>
    rcases h3 : unitLookup MASS_G (pyLower fu) with _ | s3 <;>
    rcases h4 : unitLookup MASS_G (pyLower tu) with _ | s4 <;>
    simp only [h1, h2, h3, h4] at h <;>
    first
      | exact convScale_isNum h
      | exact Except.noConfusion h

theorem applyFuncV_isNum {I : MathInterp} {g : FuncV} {vs : List Value}
    {v : Value} (h : applyFuncV I g vs = .ok v) : isNumValue v = true := by
  cases g <;>
    rcases vs with _ | ⟨a, _ | ⟨b, _ | ⟨c, _ | ⟨d, t⟩⟩⟩⟩ <;>
    simp only [applyFuncV] at h <;>
    first
      | exact convertCall_isNum h
      | exact applyLog2_isNum h
      | exact applyMathArg_isNum h
      | exact Except.noConfusion h

theorem applyBin_good {I : MathInterp} {k : BinK} {a b v : Value}
    (ha : (isNumValue a || isFnValue a) = true)
    (hb : (isNumValue b || isFnValue b) = true)
    (h : applyBin I k a b = .ok v) : isNumValue v = true := by
  rcases a with x | s | x | _ | f <;> rcases b with y | s2 | y | _ | g <;>
    simp only [isNumValue, isFnValue, Bool.or_eq_true] at ha hb <;>
    simp only [applyBin, valueToNum] at h <;>
    first
      | exact applyBinNum_isNum h
      | exact Except.noConfusion h
      | simp at ha
      | simp at hb

theorem normalize_good {v : Value}
    (h : (isNumValue v || isFnValue v) = true) :
    (isNumValue (normalize v) || isFnValue (normalize v)) = true := by
  rcases v with x | s | x | _ | f
  · rcases x with n | q
    · rfl
    · simp only [normalize]
      split_ifs <;> rfl
  · simp [isNumValue, isFnValue] at h
  · simp [isNumValue, isFnValue] at h
  · simp [isNumValue, isFnValue] at h
  · rfl

theorem evalGood {I : MathInterp} :
    (a : Ast) → numericLits a = true → ∀ v, _eval I a = Except.ok v →
      (isNumValue v || isFnValue v) = true
  | .constant c, h, v, he => by
    simp only [_eval] at he
    injection he with h0
    rw [← h0]
    rcases c with n | q | b | s | _ <;> first | rfl | exact absurd h (by simp [numericLits, cstNumeric])
  | .numNode c, h, v, he => by
    simp only [_eval] at he
    injection he with h0
    rw [← h0]
    rcases c with n | q | b | s | _ <;> first | rfl | exact absurd h (by simp [numericLits, cstNumeric])
  | .binOp k l r, h, v, he => by
    simp only [numericLits, Bool.and_eq_true] at h
    simp only [_eval] at he
    split_ifs at he with hk
    · rcases hl : _eval I l with e | av
      · rw [hl] at he
        exact Except.noConfusion he
      · rw [hl] at he
        rcases hr : _eval I r with e | bv
        · rw [hr] at he
          exact Except.noConfusion he
        · rw [hr] at he
          have hgl := evalGood l h.1 av hl
          have hgr := evalGood r h.2 bv hr
          have := applyBin_good hgl hgr he
          simp [this]
  | .unaryOp u e, h, v, he => by
    simp only [numericLits] at h
    simp only [_eval] at he
    split_ifs at he with hu
    · rcases hl : _eval I e with er | av
      · rw [hl] at he
        exact Except.noConfusion he
      · rw [hl] at he
        have := applyUnary_isNum he
        simp [this]
  | .name id, _, v, he => by
    simp only [_eval] at he
    rcases hm : mathLookup I id with _ | w
    · rw [hm] at he
      exact Except.noConfusion he
    · rw [hm] at he
      injection he with h0
      rw [← h0]
      exact mathLookup_good hm
  | .call f args kws, h, v, he => by
    simp only [_eval] at he
    rcases hf : _eval I f with e | fv
    · rw [hf] at he
      exact Except.noConfusion he
    · rw [hf] at he
      rcases hargs : _evalList I args with e | vs
      · rw [hargs] at he
        exact Except.noConfusion he
      · rw [hargs] at he
        rcases fv with x | s | x | _ | g <;> try exact Except.noConfusion he
        have := applyFuncV_isNum he
        simp [this]
  | .attributeNode x a, _, v, he => by
    simp only [_eval] at he
    exact Except.noConfusion he
  | .subscript x i, _, v, he => by
    simp only [_eval] at he
    exact Except.noConfusion he
  | .compare x rs, _, v, he => by
    simp only [_eval] at he
    exact Except.noConfusion he
  | .boolOp vs, _, v, he => by
    simp only [_eval] at he
    exact Except.noConfusion he
  | .ifExp a b c, _, v, he => by
    simp only [_eval] at he
    exact Except.noConfusion he
  | .listNode xs, _, v, he => by
    simp only [_eval] at he
    exact Except.noConfusion he
  | .tupleNode xs, _, v, he => by
    simp only [_eval] at he
    exact Except.noConfusion he
  | .dictNode ps, _, v, he => by
    simp only [_eval] at he
    exact Except.noConfusion he
  | .lambdaNode b, _, v, he => by
    simp only [_eval] at he
    exact Except.noConfusion he
  | .joinedStr ps, _, v, he => by
    simp only [_eval] at he
    exact Except.noConfusion he

/-! Claim theorems. -/

/-- C1, counterexample: the claim says every node outside
{numeric Literal, BinaryOp(six ops), UnaryOp(neg), NameRef, Call} fails with
an UnsupportedExpressionError and never produces a value; but a string
literal (an `ast.Constant` whose value is not numeric, hence outside that
set) evaluates successfully to the string itself. -/
theorem claimC1_counterexample :
    _eval trivInterp (Ast.constant (Cst.strC "hi")) = .ok (.strV "hi") ∧
    isNumValue (.strV "hi") = false :=
  ⟨rfl, rfl⟩

/-- C1 (amended): node kinds without an `isinstance` branch — attribute
access, indexing, comparisons, `and`/`or` boolean operations, conditional
expressions, displays, lambdas, f-strings — fail with the
UnsupportedExpressionError naming the construct; a BinaryOp with an operator
outside the six and a UnaryOp other than negation fail with the KeyError of
the `OPS` lookup instead (before the operands are even evaluated); and a
Literal of any constant kind (numeric or not) is accepted and returned
verbatim. -/
theorem claimC1_amended : ∀ (I : MathInterp),
    (∀ x a, _eval I (.attributeNode x a) = .error (.unsupportedNode "Attribute")) ∧
    (∀ x i, _eval I (.subscript x i) = .error (.unsupportedNode "Subscript")) ∧
    (∀ x rs, _eval I (.compare x rs) = .error (.unsupportedNode "Compare")) ∧
    (∀ vs, _eval I (.boolOp vs) = .error (.unsupportedNode "BoolOp")) ∧
    (∀ a b c, _eval I (.ifExp a b c) = .error (.unsupportedNode "IfExp")) ∧
    (∀ xs, _eval I (.listNode xs) = .error (.unsupportedNode "List")) ∧
    (∀ xs, _eval I (.tupleNode xs) = .error (.unsupportedNode "Tuple")) ∧
    (∀ ps, _eval I (.dictNode ps) = .error (.unsupportedNode "Dict")) ∧
    (∀ b, _eval I (.lambdaNode b) = .error (.unsupportedNode "Lambda")) ∧
    (∀ ps, _eval I (.joinedStr ps) = .error (.unsupportedNode "JoinedStr")) ∧
    (∀ k l r, opsHasBin k = false → _eval I (.binOp k l r) = .error .keyError) ∧
    (∀ u e, u ≠ UnK.usub → _eval I (.unaryOp u e) = .error .keyError) ∧
    (∀ c, _eval I (.constant c) = .ok (cstValue c)) := by
  intro I
  refine ⟨fun x a => rfl, fun x i => rfl, fun x rs => rfl, fun vs => rfl,
    fun a b c => rfl, fun xs => rfl, fun xs => rfl, fun ps => rfl,
    fun b => rfl, fun ps => rfl, ?_, ?_, fun c => rfl⟩
  · intro k l r h
    simp [_eval, h]
  · intro u e h
    simp [_eval, h]

/-- C1, witness: floor division and unary plus both fail, each with the
KeyError of the amended statement. -/
theorem claimC1_witness :
    _eval trivInterp (Ast.binOp .floorDiv (Ast.constant (Cst.intC 10))
      (Ast.constant (Cst.intC 3))) = .error .keyError ∧
    _eval trivInterp (Ast.unaryOp .uadd (Ast.constant (Cst.intC 5))) =
      .error .keyError :=
  ⟨(claimC1_amended trivInterp).2.2.2.2.2.2.2.2.2.2.1 .floorDiv _ _ rfl,
   (claimC1_amended trivInterp).2.2.2.2.2.2.2.2.2.2.2.1 .uadd _ (by decide)⟩

/-- C2, counterexample: the claim says every successful `calculate` returns
a number; but the string literal expression evaluates successfully to a
string. -/
theorem claimC2_counterexample :
    safe_eval trivInterp "\x27x\x27" (.ok (Ast.constant (Cst.strC "x"))) =
      .ok (.strV "x") ∧
    isNumValue (.strV "x") = false :=
  ⟨rfl, rfl⟩

/-- C2 (amended): on success the result can also be a string, boolean,
`None` (non-numeric literals are returned verbatim) or a whitelisted
callable (a bare function name); on every input whose parsed tree has only
numeric literals in evaluated position, a successful `safe_eval` returns a
number or a whitelisted callable. -/
theorem claimC2_amended :
    ∀ (I : MathInterp) (expr : String) (tree : Except Err Ast) (v : Value),
      (∀ a, tree = Except.ok a → numericLits a = true) →
      safe_eval I expr tree = .ok v →
      (isNumValue v || isFnValue v) = true := by
  intro I expr tree v htree hsafe
  rcases h1 : try_unit_conversion expr with e | o
  · exact absurd hsafe (by simp [safe_eval, h1])
  · rcases o with _ | q
    · rcases htree2 : tree with e2 | body
      · exact absurd hsafe (by simp [safe_eval, h1, arithPath, htree2])
      · rcases heval : _eval I body with e3 | r
        · exact absurd hsafe (by simp [safe_eval, h1, arithPath, htree2, heval])
        · have hv : normalize r = v := by
            have h2 := hsafe
            simp [safe_eval, h1, arithPath, htree2, heval] at h2
            exact h2
          rw [← hv]
          exact normalize_good (evalGood body (htree body htree2) r heval)
    · have hv : Value.num (.floatN q) = v := by
        have h2 := hsafe
        simp [safe_eval, h1] at h2
        exact h2
      rw [← hv]
      rfl

/-- C2, witness: an all-numeric arithmetic input succeeds with a numeric
result. -/
theorem claimC2_witness :
    safe_eval trivInterp "2 + 2" (.ok (Ast.binOp .add
      (Ast.constant (Cst.intC 2)) (Ast.constant (Cst.intC 2)))) =
      .ok (.num (.intN 4)) ∧
    (isNumValue (Value.num (.intN 4)) || isFnValue (Value.num (.intN 4))) = true :=
  ⟨rfl, claimC2_amended trivInterp "2 + 2"
    (.ok (Ast.binOp .add (Ast.constant (Cst.intC 2))
      (Ast.constant (Cst.intC 2)))) (Value.num (.intN 4))
    (fun a ha => by cases ha; rfl) rfl⟩

/-- C3, counterexample: the claim says `calculate("os.system('x')")` fails
with a NameError; it actually fails with the UnsupportedExpressionError for
the attribute-access node, which is rejected before any name lookup. -/
theorem claimC3_counterexample :
    _eval trivInterp (Ast.call
      (Ast.attributeNode (Ast.name "os") "system")
      [Ast.constant (Cst.strC "x")] []) =
      .error (.unsupportedNode "Attribute") ∧
    isNameErr (.unsupportedNode "Attribute") = false :=
  ⟨rfl, rfl⟩

/-- C3 (amended): every bare identifier outside the whitelist fails with a
NameError carrying the identifier, and no arbitrary code executes; but
`os.system('x')` fails with the UnsupportedExpressionError for attribute
access (the `Attribute` node is rejected before its name is looked up), not
with a NameError. -/
theorem claimC3_amended :
    (∀ (I : MathInterp) (id : String), id ∉ mathNames →
      _eval I (.name id) = .error (.nameError id)) ∧
    (∀ I : MathInterp, _eval I (Ast.call
      (Ast.attributeNode (Ast.name "os") "system")
      [Ast.constant (Cst.strC "x")] []) =
      .error (.unsupportedNode "Attribute")) := by
  constructor
  · intro I id h
    simp [_eval, mathLookup_none h]
  · intro I
    rfl

/-- C3, witness: the bare identifier `os` is outside the whitelist and
fails with the NameError naming it. -/
theorem claimC3_witness :
    _eval trivInterp (Ast.name "os") = .error (.nameError "os") :=
  claimC3_amended.1 trivInterp "os" (by decide)

/-- C4, counterexample: the claim says an integral conversion result is
normalized to an integer; but `safe_eval "1000 ml to l"` returns the float
1.0 unchanged (the conversion path returns before the normalization step),
not the integer 1. -/
theorem claimC4_counterexample :
    safe_eval trivInterp "1000 ml to l" (.error .synError) =
      .ok (.num (.floatN 1)) ∧
    Value.num (.floatN 1) ≠ Value.num (.intN 1) := by
  constructor
  · have h1 : safe_eval trivInterp "1000 ml to l" (.error .synError) =
        .ok (.num (.floatN (decValue ['1', '0', '0', '0'] [] * 1 / 1000))) := rfl
    rw [h1]
    have hdv : decValue ['1', '0', '0', '0'] [] =
        ((1000 : ℕ) : ℚ) + ((0 : ℕ) : ℚ) / (10 : ℚ) ^ (0 : ℕ) := rfl
    rw [hdv]
    norm_num
  · simp

/-- C4 (amended): the integral-float normalization is applied only on the
arithmetic path; the unit-conversion shorthand path returns its float
result as is, even when the value is integral. -/
theorem claimC4_amended :
    (∀ (I : MathInterp) (expr : String) (tree : Except Err Ast)
      (q : ℚ) (u1 u2 : String) (r : ℚ),
      convMatch expr.data = some (q, u1, u2) → _convert q u1 u2 = .ok r →
      safe_eval I expr tree = .ok (.num (.floatN r))) ∧
    (∀ (I : MathInterp) (expr : String) (tree : Except Err Ast)
      (body : Ast) (v : Value),
      convMatch expr.data = none → tree = .ok body → _eval I body = .ok v →
      safe_eval I expr tree = .ok (normalize v)) := by
  constructor
  · intro I expr tree q u1 u2 r h1 h2
    simp only [safe_eval, try_unit_conversion, h1, h2]
  · intro I expr tree body v h1 h2 h3
    subst h2
    simp only [safe_eval, try_unit_conversion, h1, arithPath, h3]

/-- C4, witness: a conversion with an integral result returns the
unnormalized float. -/
theorem claimC4_witness :
    safe_eval trivInterp "2 l to ml" (.error .synError) =
      .ok (.num (.floatN 2000)) := by
  have h := claimC4_amended.1 trivInterp "2 l to ml" (.error .synError)
    (decValue ['2'] []) "l" "ml" (decValue ['2'] [] * 1000 / 1) rfl rfl
  have hv : decValue ['2'] [] * 1000 / 1 = (2000 : ℚ) := by
    have hdv : decValue ['2'] [] =
        ((2 : ℕ) : ℚ) + ((0 : ℕ) : ℚ) / (10 : ℚ) ^ (0 : ℕ) := rfl
    rw [hdv]
    norm_num
  rw [hv] at h
  exact h

/-- C5 (confirmed): `_convert` succeeds exactly when both unit names,
lowercased, are found in the same one of the two tables, with the result
`value * scale(fromUnit) / scale(toUnit)` from that table (volume tried
first); when the two units are not both in one table — in particular for
every cross-dimension pair — it fails with the ConversionError naming both
units. -/
theorem claimC5 : ∀ (v : ℚ) (fu tu : String),
    ((∃ r, _convert v fu tu = .ok r) ↔
      ((inVol fu = true ∧ inVol tu = true) ∨
       (inMass fu = true ∧ inMass tu = true))) ∧
    (∀ a b, unitLookup VOL_ML (pyLower fu) = some a →
      unitLookup VOL_ML (pyLower tu) = some b →
      _convert v fu tu = .ok (v * a / b)) ∧
    (∀ a b, unitLookup MASS_G (pyLower fu) = some a →
      unitLookup MASS_G (pyLower tu) = some b →
      _convert v fu tu = .ok (v * a / b)) ∧
    (¬((inVol fu = true ∧ inVol tu = true) ∨
       (inMass fu = true ∧ inMass tu = true)) →
      _convert v fu tu = .error (.conversionError fu tu)) ∧
    (inVol fu = true → inMass tu = true →
      _convert v fu tu = .error (.conversionError fu tu)) ∧
    (inMass fu = true → inVol tu = true →
      _convert v fu tu = .error (.conversionError fu tu)) := by
  intro v fu tu
  refine ⟨?_, ?_, ?_, ?_, ?_, ?_⟩
  · constructor
    · rintro ⟨r, hr⟩
      rcases h1 : unitLookup VOL_ML (pyLower fu) with _ | a <;>
        rcases h2 : unitLookup VOL_ML (pyLower tu) with _ | b <;>
        rcases h3 : unitLookup MASS_G (pyLower fu) with _ | c <;>
        rcases h4 : unitLookup MASS_G (pyLower tu) with _ | d <;>
        simp only [_convert, h1, h2, h3, h4] at hr <;>
        simp_all [inVol, inMass]
    · rintro (⟨h1, h2⟩ | ⟨h1, h2⟩)
      · simp only [inVol] at h1 h2
        obtain ⟨a, ha⟩ := Option.isSome_iff_exists.mp h1
        obtain ⟨b, hb⟩ := Option.isSome_iff_exists.mp h2
        exact ⟨v * a / b, by simp only [_convert, ha, hb]⟩
      · simp only [inMass] at h1 h2
        have hvf : unitLookup VOL_ML (pyLower fu) = none := vol_none_of_mass h1
        obtain ⟨c, hc⟩ := Option.isSome_iff_exists.mp h1
        obtain ⟨d, hd⟩ := Option.isSome_iff_exists.mp h2
        exact ⟨v * c / d, by simp only [_convert, hvf, hc, hd]⟩
  · intro a b ha hb
    simp only [_convert, ha, hb]
  · intro a b ha hb
    have hvf : unitLookup VOL_ML (pyLower fu) = none :=
      vol_none_of_mass (by simp [ha])
    simp only [_convert, hvf, ha, hb]
  · intro hn
    rcases h1 : unitLookup VOL_ML (pyLower fu) with _ | a <;>
      rcases h2 : unitLookup VOL_ML (pyLower tu) with _ | b <;>
      rcases h3 : unitLookup MASS_G (pyLower fu) with _ | c <;>
      rcases h4 : unitLookup MASS_G (pyLower tu) with _ | d <;>
      simp only [_convert, h1, h2, h3, h4] <;>
      first
        | rfl
        | (exfalso; apply hn; left; constructor <;> (simp [inVol, h1, h2]; done))
        | (exfalso; apply hn; right; constructor <;> (simp [inMass, h3, h4]; done))
  · intro h1 h2
    simp only [inVol] at h1
    simp only [inMass] at h2
    have hv2 : unitLookup VOL_ML (pyLower tu) = none := vol_none_of_mass h2
    have hm1 : unitLookup MASS_G (pyLower fu) = none := mass_none_of_vol h1
    obtain ⟨a, ha⟩ := Option.isSome_iff_exists.mp h1
    obtain ⟨d, hd⟩ := Option.isSome_iff_exists.mp h2
    simp only [_convert, ha, hv2, hm1, hd]
  · intro h1 h2
    simp only [inMass] at h1
    simp only [inVol] at h2
    have hv1 : unitLookup VOL_ML (pyLower fu) = none := vol_none_of_mass h1
    have hm2 : unitLookup MASS_G (pyLower tu) = none := mass_none_of_vol h2
    obtain ⟨c, hc⟩ := Option.isSome_iff_exists.mp h1
    obtain ⟨b, hb⟩ := Option.isSome_iff_exists.mp h2
    simp only [_convert, hv1, hc, hm2, hb]

/-- C5, witness: uppercase unit names convert through the volume table with
the cups and millilitre scale factors. -/
theorem claimC5_witness :
    _convert 2 "CUPS" "ML" = .ok (2 * (236588/1000) / 1) :=
  (claimC5 2 "CUPS" "ML").2.1 (236588/1000) 1 rfl rfl

/-- C6 (confirmed): `try_unit_conversion` returns `None` (not an error)
exactly when the input does not match the spec's shorthand shape
(`ShorthandShape`, stated from the spec's words); and when the shape does
match but the units cannot be converted, `safe_eval` fails with the
ConversionError instead of falling through to arithmetic parsing. -/
theorem claimC6 :
    (∀ s : String, try_unit_conversion s = .ok none ↔ ¬ ShorthandShape s.data) ∧
    (∀ (I : MathInterp) (s : String) (tree : Except Err Ast) (q : ℚ)
      (u1 u2 : String) (e : Err),
      convMatch s.data = some (q, u1, u2) → _convert q u1 u2 = .error e →
      safe_eval I s tree = .error e) := by
  constructor
  · intro s
    constructor
    · intro h hshape
      have hsome := convMatch_of_shape hshape
      rcases hc : convMatch s.data with _ | out
      · rw [hc] at hsome
        exact Bool.noConfusion hsome
      · rcases out with ⟨q, u1, u2⟩
        rcases hcv : _convert q u1 u2 with e | r
        · have h2 : try_unit_conversion s = .error e := by
            simp only [try_unit_conversion, hc, hcv]
          rw [h2] at h
          exact Except.noConfusion h
        · have h2 : try_unit_conversion s = .ok (some r) := by
            simp only [try_unit_conversion, hc, hcv]
          rw [h2] at h
          injection h with h0
          exact Option.noConfusion h0
    · intro hns
      rcases hc : convMatch s.data with _ | out
      · simp only [try_unit_conversion, hc]
      · exact absurd (shape_of_convMatch hc) hns
  · intro I s tree q u1 u2 e h1 h2
    simp only [safe_eval, try_unit_conversion, h1, h2]

/-- C6, witness: "2.5 cups to g" matches the shape but crosses dimensions,
so `safe_eval` fails with the ConversionError and does not fall through. -/
theorem claimC6_witness :
    safe_eval trivInterp "2.5 cups to g" (.error .synError) =
      .error (.conversionError "cups" "g") :=
  claimC6.2 trivInterp "2.5 cups to g" (.error .synError)
    (decValue ['2'] ['5']) "cups" "g" (.conversionError "cups" "g") rfl rfl

/-- C7 (confirmed): binary division is true division — `calculate("10 / 4")`
is 2.5 and `calculate("10 / 5")` is the integer 2 after normalization — the
division of any two numbers with nonzero divisor is the real quotient as a
float, and every expression whose right operand evaluates to zero fails
rather than returning a value. -/
theorem claimC7 :
    (∀ I : MathInterp, safe_eval I "10 / 4"
      (.ok (Ast.binOp .div (Ast.constant (Cst.intC 10))
        (Ast.constant (Cst.intC 4)))) = .ok (.num (.floatN (5 / 2)))) ∧
    (∀ I : MathInterp, safe_eval I "10 / 5"
      (.ok (Ast.binOp .div (Ast.constant (Cst.intC 10))
        (Ast.constant (Cst.intC 5)))) = .ok (.num (.intN 2))) ∧
    (∀ (I : MathInterp) (x y : PyNum), numToQ y ≠ 0 →
      applyBinNum I .div x y = .ok (.num (.floatN (numToQ x / numToQ y)))) ∧
    (∀ (I : MathInterp) (l r : Ast) (b : Value) (n : PyNum),
      _eval I r = .ok b → valueToNum b = some n → numToQ n = 0 →
      ∀ v, _eval I (.binOp .div l r) ≠ .ok v) := by
  refine ⟨?_, ?_, ?_, ?_⟩
  · intro I
    have h1 : safe_eval I "10 / 4"
        (.ok (Ast.binOp .div (Ast.constant (Cst.intC 10))
          (Ast.constant (Cst.intC 4)))) =
        .ok (normalize (.num (.floatN (numToQ (.intN 10) / numToQ (.intN 4))))) := rfl
    rw [h1]
    have h2 : numToQ (.intN 10) / numToQ (.intN 4) = (5 : ℚ) / 2 := by
      simp only [numToQ]
      norm_num
    rw [h2]
    have h3 : ((5 : ℚ) / 2).den = 2 := by norm_num [Rat.den]
    simp [normalize, h3]
  · intro I
    have h1 : safe_eval I "10 / 5"
        (.ok (Ast.binOp .div (Ast.constant (Cst.intC 10))
          (Ast.constant (Cst.intC 5)))) =
        .ok (normalize (.num (.floatN (numToQ (.intN 10) / numToQ (.intN 5))))) := rfl
    rw [h1]
    have h2 : numToQ (.intN 10) / numToQ (.intN 5) = ((2 : ℤ) : ℚ) := by
      simp only [numToQ]
      norm_num
    rw [h2]
    simp [normalize, Rat.den_intCast, Rat.num_intCast]
  · intro I x y hy
    simp only [applyBinNum, if_neg hy]
  · intro I l r b n hb hn h0 v hcontra
    simp [_eval] at hcontra
    rcases hl : _eval I l with e | a
    · rw [hl] at hcontra
      exact Except.noConfusion hcontra
    · rw [hl, hb] at hcontra
      have hcontra2 : applyBin I BinK.div a b = Except.ok v := hcontra
      rcases a with xa | sa | ba | _ | fa <;> rcases b with xb | sb | bb | _ | fb <;>
        simp only [applyBin, valueToNum] at hcontra2 hn <;>
        first
          | exact Option.noConfusion hn
          | exact Except.noConfusion hcontra2
          | (injection hn with hn0; subst hn0;
             (simp only [applyBinNum, if_pos h0] at hcontra2) <;>
               exact Except.noConfusion hcontra2)

/-- C7, witness: 10 divided by 4 is the real quotient as a float, and
dividing by a zero-valued operand never returns a value. -/
theorem claimC7_witness :
    applyBinNum trivInterp .div (.intN 10) (.intN 4) =
      .ok (.num (.floatN (numToQ (.intN 10) / numToQ (.intN 4)))) ∧
    _eval trivInterp (Ast.binOp .div (Ast.constant (Cst.intC 1))
      (Ast.constant (Cst.intC 0))) ≠ .ok (.num (.intN 0)) :=
  ⟨claimC7.2.2.1 trivInterp (.intN 10) (.intN 4) (by norm_num [numToQ]),
   claimC7.2.2.2 trivInterp (Ast.constant (Cst.intC 1))
     (Ast.constant (Cst.intC 0)) (.num (.intN 0)) (.intN 0) rfl rfl
     (by norm_num [numToQ]) (.num (.intN 0))⟩

/-- C8 (confirmed): for every expression and every parse, the handler
returns exactly one of the two outbound shapes — the result shape holding
the successful value, or the error shape holding whichever error
`safe_eval` raised; the two shapes are mutually exclusive. -/
theorem claimC8 : ∀ (I : MathInterp) (expr : String) (tree : Except Err Ast),
    ((∃ v, safe_eval I expr tree = .ok v ∧
        handle_calculate I expr tree = .result v) ∨
     (∃ e, safe_eval I expr tree = .error e ∧
        handle_calculate I expr tree = .errorR e)) ∧
    (∀ (v : Value) (e : Err),
      (Response.result v = Response.errorR e) ↔ False) := by
  intro I expr tree
  constructor
  · rcases hs : safe_eval I expr tree with e | v
    · exact Or.inr ⟨e, rfl, by simp [handle_calculate, hs]⟩
    · exact Or.inl ⟨v, rfl, by simp [handle_calculate, hs]⟩
  · intro v e
    constructor
    · intro h
      exact Response.noConfusion h
    · intro h
      exact h.elim

/-- C9 (confirmed): the evaluator reads only the positional arguments of a
call — the result does not depend on the keyword arguments at all (they are
neither evaluated nor passed) — and `log(100, base=10)` therefore succeeds
with the one-argument natural logarithm of 100, ignoring the base. -/
theorem claimC9 :
    (∀ (I : MathInterp) (f : Ast) (args : List Ast)
      (kws kws2 : List (String × Ast)),
      _eval I (.call f args kws) = _eval I (.call f args kws2)) ∧
    (∀ I : MathInterp,
      _eval I (Ast.call (Ast.name "log") [Ast.constant (Cst.intC 100)]
        [("base", Ast.constant (Cst.intC 10))]) =
      .ok (.num (.floatN (I.logV 100)))) := by
  constructor
  · intro I f args kws kws2
    rfl
  · intro I
    have h1 : _eval I (Ast.call (Ast.name "log") [Ast.constant (Cst.intC 100)]
        [("base", Ast.constant (Cst.intC 10))]) =
        .ok (.num (.floatN (I.logV (numToQ (.intN 100))))) := rfl
    rw [h1]
    have h2 : numToQ (.intN 100) = (100 : ℚ) := by norm_num [numToQ]
    rw [h2]

/-- C10 (confirmed): the connector of the shorthand is matched
case-sensitively — upper- or mixed-case connectors make the recognizer
return `None`, so `safe_eval` falls through to the arithmetic path — while
unit names are matched case-insensitively, and the lowercase connector with
any unit casing converts. -/
theorem claimC10 :
    try_unit_conversion "2 cups TO ml" = .ok none ∧
    try_unit_conversion "2 cups To ml" = .ok none ∧
    try_unit_conversion "2 cups tO ml" = .ok none ∧
    (∀ (I : MathInterp) (tree : Except Err Ast),
      safe_eval I "2 cups TO ml" tree = arithPath I tree) ∧
    try_unit_conversion "2 cups to ml" = .ok (some (59147 / 125)) ∧
    try_unit_conversion "2 CUPS to ML" = .ok (some (59147 / 125)) := by
  have h2 : decValue ['2'] [] * (236588/1000) / 1 = (59147 : ℚ) / 125 := by
    have hdv : decValue ['2'] [] =
        ((2 : ℕ) : ℚ) + ((0 : ℕ) : ℚ) / (10 : ℚ) ^ (0 : ℕ) := rfl
    rw [hdv]
    norm_num
  refine ⟨rfl, rfl, rfl, fun I tree => rfl, ?_, ?_⟩
  · have h1 : try_unit_conversion "2 cups to ml" =
        .ok (some (decValue ['2'] [] * (236588/1000) / 1)) := rfl
    rw [h1, h2]
  · have h1 : try_unit_conversion "2 CUPS to ML" =
        .ok (some (decValue ['2'] [] * (236588/1000) / 1)) := rfl
    rw [h1, h2]

end CalcService
